import Mathlib

/-!
# protogenerat0r: a verification development

Shallow embedding of `src/protogenerat0r.go` (package `main`) and of the pieces
of the Go standard library it calls, followed by theorems about the embedding.

Conventions of the embedding.

* A Go `string` / `[]byte` holding UTF-8 text is a `List Char` (`Str`).  Go
  compares strings byte-wise; on UTF-8 text byte-wise order coincides with the
  code-point order used here, and the bytes `.` and `/` only occur as the
  characters themselves.
* A Go `map` is an association list in the order `range` visits it.  Go leaves
  that order unspecified, which is why order-independence is proved explicitly.
* A `panic` is the result `none`.
-/

namespace ProtoGen

/-- Go text: a sequence of characters. -/
abbrev Str := List Char

/-! ## Standard-library functions used by the program -/

/-- `os.IsPathSeparator` on Unix: the separator is `/`. -/
def IsPathSeparator (c : Char) : Bool := c == '/'

/-- Loop of `filepath.Ext`: `i` counts down from `len(path)`; position `i - 1`
is inspected, the loop stops at a path separator, and the suffix starting at a
dot is returned. -/
def extLoop (path : Str) : Nat → Str
  | 0 => []
  | i + 1 =>
    match path[i]? with
    | none => []
    | some c =>
      if IsPathSeparator c then []
      else if c = '.' then path.drop i
      else extLoop path i

/-- `filepath.Ext`: the suffix beginning at the final dot of the final path
element, empty when there is no dot. -/
def Ext (path : Str) : Str := extLoop path path.length

/-- `strings.HasSuffix`:
`len(s) >= len(suffix) && s[len(s)-len(suffix):] == suffix`. -/
def HasSuffix (s suffix : Str) : Bool :=
  decide (suffix.length ≤ s.length) && (s.drop (s.length - suffix.length) == suffix)

/-- The part of `os.FileInfo` the program reads. -/
structure FileInfo where
  Name : Str
  IsDir : Bool
deriving DecidableEq, Repr

/-- `unicode.IsUpper`: code points up to `MaxLatin1` are answered from the
`properties` table (upper-case letters are A-Z, U+00C0-U+00D6, U+00D8-U+00DE);
the others are looked up in the range table `unicode.Upper`, which is taken
as the parameter `Upper`. -/
def IsUpper (Upper : Char → Bool) (r : Char) : Bool :=
  if r.toNat ≤ 0xFF then
    (decide (0x41 ≤ r.toNat) && decide (r.toNat ≤ 0x5A)) ||
    (decide (0xC0 ≤ r.toNat) && decide (r.toNat ≤ 0xD6)) ||
    (decide (0xD8 ≤ r.toNat) && decide (r.toNat ≤ 0xDE))
  else Upper r

/-- `utf8.DecodeRuneInString`, first result: the first character, or
`utf8.RuneError` (U+FFFD) for the empty string. -/
def DecodeRuneInString : Str → Char
  | [] => Char.ofNat 0xFFFD
  | c :: _ => c

/-- `ast.IsExported`: the name starts with an upper-case letter. -/
def IsExported (Upper : Char → Bool) (name : Str) : Bool :=
  IsUpper Upper (DecodeRuneInString name)

/-- `sort.Strings`: sorts into increasing order of Go string comparison.  The
order is total and equal strings are identical, so the result does not depend
on the sorting algorithm; insertion sort computes it. -/
def sortStrings (names : List Str) : List Str :=
  List.insertionSort (· ≤ ·) names

/-- The text `fmt` prints for operands left over after the format is used up:
`%!(EXTRA string=a, string=b)`. -/
def extraArgs (args : List Str) : Str :=
  "%!(EXTRA ".toList ++
    ", ".toList.intercalate (args.map fun a => "string=".toList ++ a) ++ ")".toList

/-- `fmt.Sprintf` for string operands and formats whose verbs are `%s` and
`%%`, which covers every format of this program: ordinary characters are
copied, `%s` prints the next operand (`%!s(MISSING)` when none is left), `%%`
prints a percent sign, left-over operands are reported at the end.  Other
verbs and flags are outside the embedding. -/
def Sprintf : Str → List Str → Str
  | [], [] => []
  | [], a :: args => extraArgs (a :: args)
  | '%' :: 's' :: rest, a :: args => a ++ Sprintf rest args
  | '%' :: 's' :: rest, [] => "%!s(MISSING)".toList ++ Sprintf rest []
  | '%' :: '%' :: rest, args => '%' :: Sprintf rest args
  | c :: rest, args => c :: Sprintf rest args

/-- `fmt.Sprintln` for string operands: blanks between operands, a newline
at the end. -/
def Sprintln (args : List Str) : Str :=
  " ".toList.intercalate args ++ "\n".toList

/-! ## The part of `go/ast` the program reads -/

/-- `ast.ObjKind`. -/
inductive ObjKind where
  | Bad | Pkg | Con | Typ | Var | Fun | Lbl
deriving DecidableEq, Repr

/-- The node types implementing `ast.Expr`; only the dynamic type of a node is
inspected by the program (through `reflect.TypeOf`), so nodes carry no
children, except that an identifier keeps its name. -/
inductive Expr where
  | BadExpr | Ident (Name : Str) | Ellipsis | BasicLit | FuncLit | CompositeLit
  | ParenExpr | SelectorExpr | IndexExpr | SliceExpr | TypeAssertExpr | CallExpr
  | StarExpr | UnaryExpr | BinaryExpr | KeyValueExpr
  | ArrayType | StructType | FuncType | InterfaceType | MapType | ChanType
deriving DecidableEq, Repr

/-- `ast.TypeSpec`: `Assign` is set for an alias declaration `type T = U`;
`Type_` is the field `Type`. -/
structure TypeSpec where
  Name : Str
  Assign : Bool
  Type_ : Expr
deriving DecidableEq, Repr

/-- The dynamic values of `ast.Object.Decl` (an `interface{}`). -/
inductive Decl where
  | nil | Field | ImportSpec | ValueSpec | TypeSpec (spec : ProtoGen.TypeSpec)
  | FuncDecl | LabeledStmt | AssignStmt | Scope
deriving DecidableEq, Repr

/-- `ast.Object`. -/
structure Object where
  Kind : ObjKind
  Name : Str
  Decl : ProtoGen.Decl
deriving DecidableEq, Repr

/-- `ast.Scope`: `Objects` is a `map[string]*Object`, listed in `range`
order. -/
structure Scope where
  Objects : List (Str × Object)
deriving DecidableEq, Repr

/-- `ast.File`: `Name` is the package name of the file's package clause. -/
structure File where
  Name : Str
  Scope : ProtoGen.Scope
deriving DecidableEq, Repr

/-- `ast.Package`: `Files` is a `map[string]*File` keyed by file name, listed
in `range` order. -/
structure Package where
  Name : Str
  Files : List (Str × File)
deriving DecidableEq, Repr

/-- `reflect.TypeOf(e) == reflect.TypeOf(&ast.StructType{})`. -/
def isStructType : Expr → Bool
  | .StructType => true
  | _ => false

/-! ## `printTypeLine` (source lines 149-170) -/

/-- Inner loop, lines 153-164, over one file scope.  The type assertion
`object.Decl.(*ast.TypeSpec)` panics when the declaration is no type spec. -/
def scanObjects (Upper : Char → Bool) (kind : ObjKind) :
    List (Str × Object) → List Str → Option (List Str)
  | [], names => some names
  | (name, object) :: rest, names =>
    if object.Kind = kind ∧ IsExported Upper name = true then
      match object.Decl with
      | .TypeSpec spec =>
        let isStruct := isStructType spec.Type_
        if isStruct then
          -- currently we only list plain structs
          scanObjects Upper kind rest (names ++ [name])
        else
          -- fmt.Printf of a diagnostic line on os.Stdout; `names` is untouched
          scanObjects Upper kind rest names
      | _ => none
    else scanObjects Upper kind rest names

/-- Outer loop, lines 152-165, over the files of the package. -/
def scanFiles (Upper : Char → Bool) (kind : ObjKind) :
    List (Str × File) → List Str → Option (List Str)
  | [], names => some names
  | (_, f) :: rest, names =>
    match scanObjects Upper kind f.Scope.Objects names with
    | none => none
    | some names1 => scanFiles Upper kind rest names1

/-- Final loop, lines 167-169: `fmt.Fprintf(w, format, name)` for each name. -/
def emitNames (format : Str) : Str → List Str → Str
  | w, [] => w
  | w, name :: rest => emitNames format (w ++ Sprintf format [name]) rest

/-- The slice `names` after `sort.Strings(names)` at line 166. -/
def sortedNames (Upper : Char → Bool) (pkg : Package) (kind : ObjKind) : Option (List Str) :=
  (scanFiles Upper kind pkg.Files []).map sortStrings

/-- `printTypeLine`: the content of the writer `w` afterwards. -/
def printTypeLine (Upper : Char → Bool) (w : Str) (pkg : Package) (kind : ObjKind)
    (format : Str) : Option Str :=
  match sortedNames Upper pkg kind with
  | none => none
  | some names => some (emitNames format w names)

/-- `printEnumLine` (lines 172-185): as `printTypeLine` without the struct
test, each name being printed twice by the format. -/
def enumObjects (Upper : Char → Bool) (kind : ObjKind) :
    List (Str × Object) → List Str → List Str
  | [], names => names
  | (name, object) :: rest, names =>
    if object.Kind = kind ∧ IsExported Upper name = true then
      enumObjects Upper kind rest (names ++ [name])
    else enumObjects Upper kind rest names

/-- Outer loop of `printEnumLine`. -/
def enumFiles (Upper : Char → Bool) (kind : ObjKind) :
    List (Str × File) → List Str → List Str
  | [], names => names
  | (_, f) :: rest, names => enumFiles Upper kind rest (enumObjects Upper kind f.Scope.Objects names)

/-- Final loop of `printEnumLine`: `fmt.Fprintf(w, format, name, name)`. -/
def emitEnumNames (format : Str) : Str → List Str → Str
  | w, [] => w
  | w, name :: rest => emitEnumNames format (w ++ Sprintf format [name, name]) rest

/-- `printEnumLine`: the content of the writer `w` afterwards. -/
def printEnumLine (Upper : Char → Bool) (w : Str) (pkg : Package) (kind : ObjKind)
    (format : Str) : Str :=
  emitEnumNames format w (sortStrings (enumFiles Upper kind pkg.Files []))

/-! ## `filter` (source lines 187-209) -/

/-- `filter`, with the global `gofile` passed explicitly. -/
def filter (gofile : Str) (info : FileInfo) : Bool :=
  let name := info.Name
  if info.IsDir then false
  else if name = gofile then false
  else if Ext name ≠ ".go".toList then false
  else if HasSuffix name "_test.go".toList then false
  else true

/-! ## Go maps as association lists -/

/-- `m[k] = v` on an association list: the binding of `k` is replaced in
place, a new key is added at the end. -/
def mapSet (m : List (Str × β)) (k : Str) (v : β) : List (Str × β) :=
  match m with
  | [] => [(k, v)]
  | (k1, v1) :: rest => if k1 = k then (k, v) :: rest else (k1, v1) :: mapSet rest k v

/-- `v, found := m[k]`. -/
def mapGet (m : List (Str × β)) (k : Str) : Option β :=
  match m with
  | [] => none
  | (k1, v1) :: rest => if k1 = k then some v1 else mapGet rest k

/-! ## The file system -/

/-- A directory: its regular files with their content and its
sub-directories, each listed in the order `Readdir` reports them. -/
inductive Dir where
  | mk (files : List (Str × Str)) (subdirs : List (Str × Dir))

/-- The regular files of a directory. -/
def Dir.files : Dir → List (Str × Str)
  | .mk files _ => files

/-- The sub-directories of a directory. -/
def Dir.subdirs : Dir → List (Str × Dir)
  | .mk _ subdirs => subdirs

/-- `ioutil.ReadFile` of the entry `name` of a directory: `none` is the error
result, returned when no such file exists or when the path is a directory. -/
def ReadFile (files : List (Str × Str)) (dirs : List Str) (name : Str) : Option Str :=
  if name ∈ dirs then none else mapGet files name

/-- `ioutil.WriteFile` of the entry `name` of a directory: the file is created
or replaced; `none` is the error result, returned when the path is a
directory. -/
def WriteFile (files : List (Str × Str)) (dirs : List Str) (name : Str) (data : Str) :
    Option (List (Str × Str)) :=
  if name ∈ dirs then none else some (mapSet files name data)

/-! ## `parser.ParseDir` (go/parser) -/

/-- The body of the `ParseDir` loop for the package map: the file is put into
the package of its package clause, which is created when missing. -/
def addFile (pkgs : List (Str × Package)) (filename : Str) (src : File) :
    List (Str × Package) :=
  let name := src.Name
  match mapGet pkgs name with
  | some pkg => mapSet pkgs name { pkg with Files := mapSet pkg.Files filename src }
  | none => mapSet pkgs name { Name := name, Files := [(filename, src)] }

/-- One iteration of the `ParseDir` loop on a directory entry.  `content` is
what reading the entry gives (`none` for a directory), `parse` is the Go parser
on a source text (`none`: syntax error).  The state is the package map and
whether a first error has been recorded. -/
def parseDirStep (parse : Str → Option File) (filter : FileInfo → Bool)
    (st : List (Str × Package) × Bool) (info : FileInfo) (content : Option Str) :
    List (Str × Package) × Bool :=
  if HasSuffix info.Name ".go".toList && filter info then
    match content.bind parse with
    | some src => (addFile st.1 info.Name src, st.2)
    | none => (st.1, true)
  else st

/-- `parser.ParseDir(fset, dir, filter, 0)`: the package map and whether the
returned error is non-nil.  Every entry whose name ends in `.go` and which the
filter accepts is parsed; later Go releases skip directories before asking the
filter, which makes no difference under the program's filter. -/
def ParseDir (parse : Str → Option File) (files : List (Str × Str)) (dirs : List Str)
    (filter : FileInfo → Bool) : List (Str × Package) × Bool :=
  let st := files.foldl
    (fun st e => parseDirStep parse filter st ⟨e.1, false⟩ (some e.2)) ([], false)
  dirs.foldl (fun st name => parseDirStep parse filter st ⟨name, true⟩ none) st

/-! ## `parseDir` (source lines 52-147) -/

/-- The package-level variables set from the command line in `main`.
`gofile` is the name of the generated file, a file name without directory
part, so that `filepath.Join(dir, gofile)` is the entry `gofile` of `dir`. -/
structure Config where
  stdout : Bool
  gofile : Str
deriving DecidableEq, Repr

/-- The first operand of the `Fprintln` of line 74. -/
def headerText : Str :=
  "// Code generated by github.com/Liamsi/protogenerat0r DO NOT EDIT.\n".toList

/-- The raw string literal of lines 78-86. -/
def importText : Str :=
  "import (\n\t\"os\"\n\n".toList ++
  "\t// we use dedis\x27 protobuf library to generate proto files from go-structs\n".toList ++
  "\t// see: https://github.com/dedis/protobuf#generating-proto-files\n".toList ++
  "\t\"github.com/dedis/protobuf\"\n)\n\n".toList

/-- The raw string literal of lines 113-118. -/
def generateProtosText : Str :=
  "\n// Call this method to generate protobuf messages: \n".toList ++
  "func GenerateProtos() \x7b\n".toList ++
  "\t// see: https://github.com/dedis/protobuf#generating-proto-files\n".toList ++
  "\tprotobuf.GenerateProtobufDefinition(os.Stdout, structTypes, nil, nil)\n".toList ++
  "\x7d".toList

/-- The local variable `hasEnums` of line 96. -/
def hasEnums : Bool := false

/-- Lines 72-118: the content of `buf` for one package. -/
def renderPackage (Upper : Char → Bool) (pkg : Package) : Option Str :=
  let buf : Str := []
  let buf := buf ++ Sprintln [headerText]
  let buf := buf ++ Sprintln ["package".toList, pkg.Name]
  let buf := buf ++ Sprintln ["".toList]
  let buf := buf ++ importText
  -- Types
  let buf := buf ++ Sprintln ["var structTypes = []interface\x7b\x7d\x7b".toList]
  match printTypeLine Upper buf pkg ObjKind.Typ "\t%s\x7b\x7d,\n".toList with
  | none => none
  | some buf =>
    let buf := buf ++ Sprintln ["\x7d".toList]
    let buf := buf ++ Sprintln ["".toList]
    -- enum map
    let buf :=
      if hasEnums then
        let buf := buf ++ Sprintln ["var enumMap  = protobuf.EnumMap\x7b".toList]
        let buf := printEnumLine Upper buf pkg ObjKind.Typ "\t\"%s\": *%s,\n".toList
        let buf := buf ++ Sprintln ["\x7d".toList]
        buf ++ Sprintln ["".toList]
      else buf
    some (buf ++ Sprintln [generateProtosText])

/-- Lines 120-132 for the rendered bytes `newFileData`: the regular files of
the directory afterwards and the number of `WriteFile` calls made.  The target
`filepath.Join(dir, gofile)` is the entry `gofile` of the directory. -/
def commit (cfg : Config) (files : List (Str × Str)) (dirs : List Str) (newFileData : Str) :
    Option (List (Str × Str) × Nat) :=
  if cfg.stdout then
    -- io.Copy(os.Stdout, &buf): the file system is not touched
    some (files, 0)
  else
    let filename := cfg.gofile
    let oldFileData := (ReadFile files dirs filename).getD []
    if newFileData ≠ oldFileData then
      match WriteFile files dirs filename newFileData with
      | none => none
      | some files1 => some (files1, 1)
    else some (files, 0)

/-- The loop of lines 71-133 over the packages of the directory; `n` counts
the `WriteFile` calls. -/
def packageLoop (Upper : Char → Bool) (cfg : Config) (dirs : List Str) :
    List (Str × Package) → List (Str × Str) → Nat → Option (List (Str × Str) × Nat)
  | [], files, n => some (files, n)
  | (_, pkg) :: rest, files, n =>
    match renderPackage Upper pkg with
    | none => none
    | some buf =>
      match commit cfg files dirs buf with
      | none => none
      | some (files1, k) => packageLoop Upper cfg dirs rest files1 (n + k)

mutual
/-- `parseDir` on a directory: the directory afterwards and the number of
`WriteFile` calls made, `none` when the run panics.  The path checks of lines
53-64 are the caller handing over a directory. -/
def parseDir (Upper : Char → Bool) (parse : Str → Option File) (cfg : Config) :
    Dir → Option (Dir × Nat)
  | .mk files subdirs =>
    let dirs := subdirs.map Prod.fst
    match ParseDir parse files dirs (filter cfg.gofile) with
    | (_, true) => none
    | (pkgs, false) =>
      match packageLoop Upper cfg dirs pkgs files 0 with
      | none => none
      | some (files1, n) =>
        match parseSubdirs Upper parse cfg subdirs with
        | none => none
        | some (subdirs1, m) => some (.mk files1 subdirs1, n + m)
/-- The loop of lines 140-144: `parseDir` on every sub-directory in turn. -/
def parseSubdirs (Upper : Char → Bool) (parse : Str → Option File) (cfg : Config) :
    List (Str × Dir) → Option (List (Str × Dir) × Nat)
  | [] => some ([], 0)
  | (name, d) :: rest =>
    match parseDir Upper parse cfg d with
    | none => none
    | some (d1, n) =>
      match parseSubdirs Upper parse cfg rest with
      | none => none
      | some (rest1, m) => some ((name, d1) :: rest1, n + m)
end

/-! ## Vocabulary used to state the properties -/

/-- An entry of a scope passes the test of line 154: its object has the
requested kind and its name is exported. -/
def selected (Upper : Char → Bool) (kind : ObjKind) (e : Str × Object) : Bool :=
  decide (e.2.Kind = kind) && IsExported Upper e.1

/-- The declaration is a type spec whose type expression is a struct type. -/
def declaresStruct : Decl → Bool
  | .TypeSpec spec => isStructType spec.Type_
  | _ => false

/-- The declaration is a type spec (the type assertion of line 155 succeeds). -/
def isTypeSpec : Decl → Bool
  | .TypeSpec _ => true
  | _ => false

/-- The entry is appended to `names` by the loop body. -/
def listed (Upper : Char → Bool) (kind : ObjKind) (e : Str × Object) : Bool :=
  selected Upper kind e && declaresStruct e.2.Decl

/-- The loop body panics on the entry. -/
def panics (Upper : Char → Bool) (kind : ObjKind) (e : Str × Object) : Bool :=
  selected Upper kind e && !isTypeSpec e.2.Decl

/-- All scope entries of the files, file after file. -/
def pkgObjects (files : List (Str × File)) : List (Str × Object) :=
  files.flatMap fun f => f.2.Scope.Objects

/-- What `go/parser` guarantees of the objects it declares: an object of kind
`Typ` is declared by a type spec. -/
def typesHaveSpecs (pkg : Package) : Bool :=
  (pkgObjects pkg.Files).all fun e =>
    decide (e.2.Kind = ObjKind.Typ → isTypeSpec e.2.Decl = true)

/-- The names appended to `names` by the loops of lines 152-165, in the order
the files and their scopes are visited. -/
def structNames (Upper : Char → Bool) (files : List (Str × File)) : List Str :=
  ((pkgObjects files).filter (listed Upper ObjKind.Typ)).map Prod.fst

/-- One line per name: a tab, the name, `{},` and a newline. -/
def listingLines (names : List Str) : Str :=
  names.flatMap fun n => "\t".toList ++ n ++ "\x7b\x7d,\n".toList

/-- The format of the call at line 90. -/
def typeFormat : Str := "\t%s\x7b\x7d,\n".toList

/-- The second file list is the first one with the files visited in another
order and the entries of each scope visited in another order. -/
def Reordered (fs gs : List (Str × File)) : Prop :=
  ∃ hs : List (Str × File),
    List.Forall₂ (fun f h => f.2.Scope.Objects.Perm h.2.Scope.Objects) fs hs ∧ hs.Perm gs

/-- An object of kind `Typ` declared by a struct type spec. -/
def structObject (name : Str) : Object :=
  { Kind := ObjKind.Typ, Name := name,
    Decl := Decl.TypeSpec { Name := name, Assign := false, Type_ := Expr.StructType } }

/-- An object of kind `Typ` declared by the alias `type name = target`. -/
def aliasObject (name target : Str) : Object :=
  { Kind := ObjKind.Typ, Name := name,
    Decl := Decl.TypeSpec { Name := name, Assign := true, Type_ := Expr.Ident target } }

/-- A range table for code points beyond Latin-1 that holds no letter; the
examples only use ASCII names. -/
def noUpper : Char → Bool := fun _ => false

/-- The package of a file declaring `type Foo struct{}`, `type bar struct{}`
and `type Baz = int`. -/
def fooBarBaz : Package :=
  { Name := "demo".toList,
    Files := [("demo.go".toList,
      { Name := "demo".toList,
        Scope := { Objects := [
          ("Foo".toList, structObject "Foo".toList),
          ("bar".toList, structObject "bar".toList),
          ("Baz".toList, aliasObject "Baz".toList "int".toList)] } })] }

/-- The same declarations spread over two files and visited in another
order. -/
def fooBarBazShuffled : Package :=
  { Name := "demo".toList,
    Files := [
      ("z.go".toList,
        { Name := "demo".toList,
          Scope := { Objects := [
            ("Zed".toList, structObject "Zed".toList),
            ("Apple".toList, structObject "Apple".toList)] } }),
      ("demo.go".toList,
        { Name := "demo".toList,
          Scope := { Objects := [
            ("Baz".toList, aliasObject "Baz".toList "int".toList),
            ("Foo".toList, structObject "Foo".toList),
            ("bar".toList, structObject "bar".toList)] } })] }

/-- A package with `fooBarBazShuffled`'s declarations in source order. -/
def fooBarBazTwoFiles : Package :=
  { Name := "demo".toList,
    Files := [
      ("demo.go".toList,
        { Name := "demo".toList,
          Scope := { Objects := [
            ("Foo".toList, structObject "Foo".toList),
            ("bar".toList, structObject "bar".toList),
            ("Baz".toList, aliasObject "Baz".toList "int".toList)] } }),
      ("z.go".toList,
        { Name := "demo".toList,
          Scope := { Objects := [
            ("Apple".toList, structObject "Apple".toList),
            ("Zed".toList, structObject "Zed".toList)] } })] }

/-- Two files of one package that each declare `type Foo struct{}`. -/
def fooTwice : Package :=
  { Name := "demo".toList,
    Files := [
      ("a.go".toList,
        { Name := "demo".toList,
          Scope := { Objects := [("Foo".toList, structObject "Foo".toList)] } }),
      ("b.go".toList,
        { Name := "demo".toList,
          Scope := { Objects := [("Foo".toList, structObject "Foo".toList)] } })] }

/-- The names one file contributes to `names`. -/
def fileStructNames (Upper : Char → Bool) (f : File) : List Str :=
  (f.Scope.Objects.filter (listed Upper ObjKind.Typ)).map Prod.fst

/-- The number of files of the package that contribute the name. -/
def declaringFiles (Upper : Char → Bool) (pkg : Package) (n : Str) : Nat :=
  (pkg.Files.filter fun f => decide (n ∈ fileStructNames Upper f.2)).length

/-- The keys of every scope map are distinct, as in any Go map. -/
def scopeKeysDistinct (pkg : Package) : Prop :=
  ∀ f ∈ pkg.Files, (f.2.Scope.Objects.map Prod.fst).Nodup

/-- The listing collected for every package of a directory: the package name
with the sorted names, `none` where the collection panics. -/
def dirListings (Upper : Char → Bool) (parse : Str → Option File) (gofile : Str)
    (files : List (Str × Str)) (dirs : List Str) : List (Str × Option (List Str)) :=
  (ParseDir parse files dirs (filter gofile)).1.map fun p =>
    (p.1, sortedNames Upper p.2 ObjKind.Typ)

mutual
/-- Every directory of the tree holds at most one package. -/
def onePackagePerDir (parse : Str → Option File) (gofile : Str) : Dir → Bool
  | .mk files subdirs =>
    decide ((ParseDir parse files (subdirs.map Prod.fst) (filter gofile)).1.length ≤ 1) &&
      onePackagePerSubdir parse gofile subdirs
/-- Every tree of the list holds at most one package per directory. -/
def onePackagePerSubdir (parse : Str → Option File) (gofile : Str) : List (Str × Dir) → Bool
  | [] => true
  | (_, d) :: rest => onePackagePerDir parse gofile d && onePackagePerSubdir parse gofile rest
end

/-- The source text `package alpha`, `type A struct{}`. -/
def srcAlpha : Str := "package alpha\n\ntype A struct\x7b\x7d\n".toList

/-- The source text `package beta`, `type B struct{}`. -/
def srcBeta : Str := "package beta\n\ntype B struct\x7b\x7d\n".toList

/-- The syntax tree of `srcAlpha`. -/
def fileAlpha : File :=
  { Name := "alpha".toList, Scope := { Objects := [("A".toList, structObject "A".toList)] } }

/-- The syntax tree of `srcBeta`. -/
def fileBeta : File :=
  { Name := "beta".toList, Scope := { Objects := [("B".toList, structObject "B".toList)] } }

/-- The parser on the two example sources; the examples parse no other text. -/
def demoParse (src : Str) : Option File :=
  if src = srcAlpha then some fileAlpha
  else if src = srcBeta then some fileBeta
  else none

/-- File mode with the default target name of `main`. -/
def demoConfig : Config := { stdout := false, gofile := "proto_generator.go".toList }

/-- A directory whose two source files declare the packages `alpha` and
`beta`. -/
def twoPackageDir : Dir :=
  Dir.mk [("a.go".toList, srcAlpha), ("b.go".toList, srcBeta)] []

/-- A root directory holding package `alpha` and a sub-directory `sub`
holding package `beta`. -/
def nestedDir : Dir :=
  Dir.mk [("a.go".toList, srcAlpha)]
    [("sub".toList, Dir.mk [("b.go".toList, srcBeta)] [])]

/-- The package `alpha` as `ParseDir` builds it from `a.go`. -/
def pkgAlpha : Package := { Name := "alpha".toList, Files := [("a.go".toList, fileAlpha)] }

/-- The package `beta` as `ParseDir` builds it from `b.go`. -/
def pkgBeta : Package := { Name := "beta".toList, Files := [("b.go".toList, fileBeta)] }

/-- The bytes rendered for package `alpha`. -/
def renderedAlpha : Str := (renderPackage noUpper pkgAlpha).getD []

/-- The bytes rendered for package `beta`. -/
def renderedBeta : Str := (renderPackage noUpper pkgBeta).getD []

/-- The tree `nestedDir` after a run: each directory has its generated file. -/
def nestedDirGenerated : Dir :=
  Dir.mk [("a.go".toList, srcAlpha), ("proto_generator.go".toList, renderedAlpha)]
    [("sub".toList,
      Dir.mk [("b.go".toList, srcBeta), ("proto_generator.go".toList, renderedBeta)] [])]

/-- The second package is the first one with one more scope entry, added to
any file at any place (or in a file of its own). -/
def AddsEntry (pkg pkg2 : Package) (e : Str × Object) : Prop :=
  pkg2.Name = pkg.Name ∧ (pkgObjects pkg2.Files).Perm (e :: pkgObjects pkg.Files)

/-- The package `fooBarBaz` with `type Cat struct{}` added to its file. -/
def fooBarBazCat : Package :=
  { Name := "demo".toList,
    Files := [("demo.go".toList,
      { Name := "demo".toList,
        Scope := { Objects := [
          ("Foo".toList, structObject "Foo".toList),
          ("bar".toList, structObject "bar".toList),
          ("Cat".toList, structObject "Cat".toList),
          ("Baz".toList, aliasObject "Baz".toList "int".toList)] } })] }

/-- A source text of the package `fooBarBaz`. -/
def srcFooBarBaz : Str :=
  "package demo\n\ntype Foo struct\x7b\x7d\ntype bar struct\x7b\x7d\ntype Baz = int\n".toList

/-- The bytes rendered for package `fooBarBaz`. -/
def renderedFooBarBaz : Str := (renderPackage noUpper fooBarBaz).getD []

/-! ## Lemmas on the string functions -/

theorem HasSuffix_iff (s suffix : Str) : HasSuffix s suffix = true ↔ suffix <:+ s := by
  unfold HasSuffix
  simp only [Bool.and_eq_true, decide_eq_true_eq, beq_iff_eq]
  constructor
  · rintro ⟨_, h⟩
    exact ⟨s.take (s.length - suffix.length), by
      have := List.take_append_drop (s.length - suffix.length) s
      rwa [h] at this⟩
  · rintro ⟨t, rfl⟩
    refine ⟨by simp, ?_⟩
    simp

theorem extLoop_suffix (path : Str) (i : Nat) : extLoop path i <:+ path := by
  induction i with
  | zero => exact List.nil_suffix
  | succ i ih =>
    unfold extLoop
    split
    · exact List.nil_suffix
    · split
      · exact List.nil_suffix
      · split
        · exact List.drop_suffix _ _
        · exact ih

/-- The extension is always a suffix of the path. -/
theorem Ext_suffix (path : Str) : Ext path <:+ path := extLoop_suffix path _

theorem extLoop_go (pre : Str) (i : Nat) (h : i = pre.length + 3) :
    extLoop (pre ++ ".go".toList) i = ".go".toList := by
  subst h
  have h1 : (pre ++ ".go".toList)[pre.length + 2]? = some 'o' := by
    rw [List.getElem?_append_right (by omega)]; simp
  have h2 : (pre ++ ".go".toList)[pre.length + 1]? = some 'g' := by
    rw [List.getElem?_append_right (by omega)]; simp
  have h3 : (pre ++ ".go".toList)[pre.length]? = some '.' := by
    rw [List.getElem?_append_right (by omega)]; simp
  rw [extLoop, h1]
  simp only [IsPathSeparator]
  rw [extLoop, h2]
  simp only [IsPathSeparator]
  rw [extLoop, h3]
  simp [IsPathSeparator]

/-- The extension is `.go` exactly when the name ends in `.go`. -/
theorem Ext_eq_go_iff (name : Str) : Ext name = ".go".toList ↔ ".go".toList <:+ name := by
  constructor
  · intro h
    rw [← h]; exact Ext_suffix name
  · rintro ⟨pre, rfl⟩
    exact extLoop_go pre _ (by simp)


/-! ## The order of strings

`≤` on `Str` is the lexicographic order on characters compared by code
point; the three lemmas below spell it out. -/

theorem char_lt_iff (a b : Char) : a < b ↔ a.toNat < b.toNat := Iff.rfl

theorem str_nil_lt_cons (b : Char) (t : Str) : ([] : Str) < b :: t := List.Lex.nil

theorem str_cons_lt_cons (a b : Char) (s t : Str) :
    (a :: s) < (b :: t) ↔ a < b ∨ (a = b ∧ s < t) := by
  constructor
  · intro h
    cases h with
    | cons h => exact Or.inr ⟨rfl, h⟩
    | rel h => exact Or.inl h
  · rintro (h | ⟨rfl, h⟩)
    · exact List.Lex.rel h
    · exact List.Lex.cons h

/-! ## Lemmas on `printTypeLine` -/

theorem scanObjects_eq (Upper : Char → Bool) (kind : ObjKind) (objs : List (Str × Object))
    (names : List Str) :
    scanObjects Upper kind objs names =
      if objs.any (panics Upper kind) = true then none
      else some (names ++ (objs.filter (listed Upper kind)).map Prod.fst) := by
  induction objs generalizing names with
  | nil => simp [scanObjects]
  | cons e rest ih =>
    obtain ⟨name, object⟩ := e
    rw [List.any_cons, List.filter_cons, scanObjects]
    by_cases hsel : object.Kind = kind ∧ IsExported Upper name = true
    · have hs : selected Upper kind (name, object) = true := by
        simp only [selected, Bool.and_eq_true, decide_eq_true_eq]; exact hsel
      rw [if_pos hsel]
      cases hd : object.Decl with
      | TypeSpec spec =>
        have hp : panics Upper kind (name, object) = false := by
          simp only [panics, hs, hd, isTypeSpec, Bool.not_true, Bool.and_false]
        have hl : listed Upper kind (name, object) = isStructType spec.Type_ := by
          simp only [listed, hs, hd, declaresStruct, Bool.true_and]
        simp only [hp, hl, Bool.false_or]
        cases isStructType spec.Type_
        · simp only [Bool.false_eq_true, if_false]; exact ih names
        · simp only [if_true, ih, List.map_cons, List.append_assoc, List.singleton_append]
      | _ =>
        have hp : panics Upper kind (name, object) = true := by
          simp only [panics, hs, hd, isTypeSpec, Bool.not_false, Bool.and_true]
        simp only [hp, Bool.true_or, if_true]
    · have hs : selected Upper kind (name, object) = false := by
        simp only [selected, Bool.and_eq_false_iff, decide_eq_false_iff_not]
        by_cases hk : object.Kind = kind
        · right
          cases hx : IsExported Upper name
          · rfl
          · exact absurd ⟨hk, hx⟩ hsel
        · left; exact hk
      have hp : panics Upper kind (name, object) = false := by
        simp only [panics, hs, Bool.false_and]
      have hl : listed Upper kind (name, object) = false := by
        simp only [listed, hs, Bool.false_and]
      rw [if_neg hsel]
      simp only [hp, hl, Bool.false_or, Bool.false_eq_true, if_false]
      exact ih names

theorem scanFiles_eq (Upper : Char → Bool) (kind : ObjKind) (files : List (Str × File))
    (names : List Str) :
    scanFiles Upper kind files names =
      if (pkgObjects files).any (panics Upper kind) = true then none
      else some (names ++ ((pkgObjects files).filter (listed Upper kind)).map Prod.fst) := by
  induction files generalizing names with
  | nil => simp [scanFiles, pkgObjects]
  | cons f rest ih =>
    obtain ⟨fname, f⟩ := f
    have hcons : pkgObjects ((fname, f) :: rest) = f.Scope.Objects ++ pkgObjects rest := by
      simp [pkgObjects]
    rw [hcons, scanFiles, scanObjects_eq, List.any_append, List.filter_append, List.map_append]
    cases h1 : f.Scope.Objects.any (panics Upper kind)
    · simp only [Bool.false_eq_true, if_false, ih, Bool.false_or, List.append_assoc]
    · simp only [if_true, Bool.true_or]

theorem emitNames_eq (format : Str) (w : Str) (names : List Str) :
    emitNames format w names = w ++ names.flatMap fun n => Sprintf format [n] := by
  induction names generalizing w with
  | nil => simp [emitNames]
  | cons n rest ih => simp [emitNames, ih]

theorem Sprintf_typeFormat (n : Str) :
    Sprintf typeFormat [n] = "\t".toList ++ n ++ "\x7b\x7d,\n".toList := by
  simp [typeFormat, Sprintf]

theorem emitNames_typeFormat (w : Str) (names : List Str) :
    emitNames typeFormat w names = w ++ listingLines names := by
  rw [emitNames_eq, listingLines]
  simp only [Sprintf_typeFormat]

theorem no_panic_of_specs (Upper : Char → Bool) (pkg : Package)
    (h : typesHaveSpecs pkg = true) :
    (pkgObjects pkg.Files).any (panics Upper ObjKind.Typ) = false := by
  rw [Bool.eq_false_iff]
  intro hany
  rw [List.any_eq_true] at hany
  obtain ⟨e, he, hp⟩ := hany
  simp only [typesHaveSpecs, List.all_eq_true] at h
  have h1 := h e he
  simp only [panics, selected, Bool.and_eq_true, decide_eq_true_eq] at hp
  simp only [hp.1.1, decide_True] at h1
  have h2 : isTypeSpec e.2.Decl = true := by simpa using h1
  rw [h2] at hp
  simp at hp

theorem sortedNames_eq (Upper : Char → Bool) (pkg : Package)
    (h : typesHaveSpecs pkg = true) :
    sortedNames Upper pkg ObjKind.Typ = some (sortStrings (structNames Upper pkg.Files)) := by
  simp only [sortedNames, scanFiles_eq, no_panic_of_specs Upper pkg h, structNames]
  rfl

theorem printTypeLine_eq (Upper : Char → Bool) (w : Str) (pkg : Package)
    (h : typesHaveSpecs pkg = true) :
    printTypeLine Upper w pkg ObjKind.Typ typeFormat =
      some (w ++ listingLines (sortStrings (structNames Upper pkg.Files))) := by
  simp only [printTypeLine, sortedNames_eq Upper pkg h, emitNames_typeFormat]

theorem sortStrings_sorted (l : List Str) : (sortStrings l).Sorted (· ≤ ·) :=
  List.sorted_insertionSort _ l

theorem sortStrings_perm (l : List Str) : (sortStrings l).Perm l :=
  List.perm_insertionSort _ l

theorem sortStrings_congr {l1 l2 : List Str} (h : l1.Perm l2) :
    sortStrings l1 = sortStrings l2 :=
  List.eq_of_perm_of_sorted
    (((sortStrings_perm l1).trans h).trans (sortStrings_perm l2).symm)
    (sortStrings_sorted l1) (sortStrings_sorted l2)

theorem mem_structNames (Upper : Char → Bool) (files : List (Str × File)) (n : Str) :
    n ∈ structNames Upper files ↔
      ∃ f ∈ files, ∃ obj : Object, (n, obj) ∈ f.2.Scope.Objects ∧
        obj.Kind = ObjKind.Typ ∧ IsExported Upper n = true ∧
        ∃ spec : TypeSpec, obj.Decl = Decl.TypeSpec spec ∧ spec.Type_ = Expr.StructType := by
  have hds : ∀ d : Decl, declaresStruct d = true ↔
      ∃ spec : TypeSpec, d = Decl.TypeSpec spec ∧ spec.Type_ = Expr.StructType := by
    intro d
    cases d with
    | TypeSpec spec =>
      obtain ⟨nm, a, t⟩ := spec
      cases t <;> simp [declaresStruct, isStructType]
    | _ => simp [declaresStruct]
  simp only [structNames, pkgObjects, List.mem_map, List.mem_filter, List.mem_flatMap, listed,
    selected, Bool.and_eq_true, decide_eq_true_eq, hds]
  constructor
  · rintro ⟨⟨n1, obj⟩, ⟨⟨f, hf, hmem⟩, ⟨hk, hx⟩, hspec⟩, rfl⟩
    exact ⟨f, hf, obj, hmem, hk, hx, hspec⟩
  · rintro ⟨f, hf, obj, hmem, hk, hx, hspec⟩
    exact ⟨(n, obj), ⟨⟨f, hf, hmem⟩, ⟨hk, hx⟩, hspec⟩, rfl⟩

theorem pkgObjects_perm {fs gs : List (Str × File)} (h : Reordered fs gs) :
    (pkgObjects fs).Perm (pkgObjects gs) := by
  obtain ⟨hs, h2, hp⟩ := h
  refine List.Perm.trans ?_ (hp.flatMap_right _)
  clear hp
  induction h2 with
  | nil => exact List.Perm.refl _
  | cons hab _ ih =>
    simp only [pkgObjects, List.flatMap_cons] at ih ⊢
    exact hab.append ih

theorem structNames_perm (Upper : Char → Bool) {fs gs : List (Str × File)}
    (h : Reordered fs gs) : (structNames Upper fs).Perm (structNames Upper gs) :=
  ((pkgObjects_perm h).filter _).map _

theorem scanFiles_reordered (Upper : Char → Bool) (kind : ObjKind) {fs gs : List (Str × File)}
    (h : Reordered fs gs) :
    (scanFiles Upper kind fs []).map sortStrings = (scanFiles Upper kind gs []).map sortStrings := by
  have hp := pkgObjects_perm h
  have hany : (pkgObjects fs).any (panics Upper kind) = (pkgObjects gs).any (panics Upper kind) := by
    rw [Bool.eq_iff_iff, List.any_eq_true, List.any_eq_true]
    exact ⟨fun ⟨e, he, hx⟩ => ⟨e, hp.mem_iff.1 he, hx⟩, fun ⟨e, he, hx⟩ => ⟨e, hp.mem_iff.2 he, hx⟩⟩
  rw [scanFiles_eq, scanFiles_eq, hany]
  cases (pkgObjects gs).any (panics Upper kind)
  · simp only [Bool.false_eq_true, if_false, Option.map_some', List.nil_append]
    exact congrArg some (sortStrings_congr ((hp.filter _).map _))
  · simp

/-- C1: `filter` returns true exactly for an entry that is not a directory,
whose name differs from the configured target file name, whose extension is
`.go` and whose name does not end in `_test.go`; otherwise it returns false. -/
theorem filter_true_iff (gofile : Str) (info : FileInfo) :
    filter gofile info = true ↔
      (info.IsDir = false ∧ info.Name ≠ gofile ∧ Ext info.Name = ".go".toList ∧
        ¬ ("_test.go".toList <:+ info.Name)) := by
  rw [← HasSuffix_iff]
  show (if info.IsDir then false
    else if info.Name = gofile then false
    else if Ext info.Name ≠ ".go".toList then false
    else if HasSuffix info.Name "_test.go".toList then false
    else true) = true ↔ _
  generalize Ext info.Name = e
  generalize HasSuffix info.Name "_test.go".toList = b
  generalize ".go".toList = g
  cases info.IsDir <;> by_cases h1 : info.Name = gofile <;>
    by_cases h2 : e = g <;> cases b <;> simp [h1, h2]

/-! ## The listing of `printTypeLine` -/

/-- C2: for a package as the parser builds it, a name is in the listing that
`printTypeLine` emits for kind `Typ` exactly when some file of the package has
it in its scope as an object of kind `Typ`, the name is exported and the
declaration is a type spec whose type is a struct type; for the declarations
`Foo struct`, `bar struct`, `Baz = int` the listing is exactly `Foo`. -/
theorem printTypeLine_lists_exported_structs (Upper : Char → Bool) (w : Str) (pkg : Package)
    (h : typesHaveSpecs pkg = true) :
    (∃ names : List Str,
      sortedNames Upper pkg ObjKind.Typ = some names ∧
      printTypeLine Upper w pkg ObjKind.Typ "\t%s\x7b\x7d,\n".toList =
        some (w ++ names.flatMap fun n => "\t".toList ++ n ++ "\x7b\x7d,\n".toList) ∧
      ∀ n : Str, n ∈ names ↔
        ∃ f ∈ pkg.Files, ∃ obj : Object, (n, obj) ∈ f.2.Scope.Objects ∧
          obj.Kind = ObjKind.Typ ∧ IsExported Upper n = true ∧
          ∃ spec : TypeSpec, obj.Decl = Decl.TypeSpec spec ∧ spec.Type_ = Expr.StructType) ∧
    sortedNames Upper fooBarBaz ObjKind.Typ = some ["Foo".toList] ∧
    printTypeLine Upper w fooBarBaz ObjKind.Typ "\t%s\x7b\x7d,\n".toList =
      some (w ++ "\tFoo\x7b\x7d,\n".toList) := by
  refine ⟨⟨sortStrings (structNames Upper pkg.Files), sortedNames_eq Upper pkg h,
    printTypeLine_eq Upper w pkg h, fun n => ?_⟩, ?_, ?_⟩
  · rw [(sortStrings_perm _).mem_iff]
    exact mem_structNames Upper pkg.Files n
  · rw [sortedNames_eq Upper fooBarBaz (by decide)]; rfl
  · have := printTypeLine_eq Upper w fooBarBaz (by decide)
    rw [show structNames Upper fooBarBaz.Files = ["Foo".toList] from rfl] at this
    exact this

/-- Witness of C2 on a package of two files. -/
theorem printTypeLine_lists_exported_structs_witness :
    typesHaveSpecs fooBarBazTwoFiles = true ∧
    ((∃ names : List Str,
      sortedNames noUpper fooBarBazTwoFiles ObjKind.Typ = some names ∧
      printTypeLine noUpper [] fooBarBazTwoFiles ObjKind.Typ "\t%s\x7b\x7d,\n".toList =
        some ([] ++ names.flatMap fun n => "\t".toList ++ n ++ "\x7b\x7d,\n".toList) ∧
      ∀ n : Str, n ∈ names ↔
        ∃ f ∈ fooBarBazTwoFiles.Files, ∃ obj : Object, (n, obj) ∈ f.2.Scope.Objects ∧
          obj.Kind = ObjKind.Typ ∧ IsExported noUpper n = true ∧
          ∃ spec : TypeSpec, obj.Decl = Decl.TypeSpec spec ∧ spec.Type_ = Expr.StructType) ∧
    sortedNames noUpper fooBarBaz ObjKind.Typ = some ["Foo".toList] ∧
    printTypeLine noUpper [] fooBarBaz ObjKind.Typ "\t%s\x7b\x7d,\n".toList =
      some ([] ++ "\tFoo\x7b\x7d,\n".toList)) :=
  ⟨by decide, printTypeLine_lists_exported_structs noUpper [] fooBarBazTwoFiles (by decide)⟩

/-- C3: the names `printTypeLine` emits are in non-decreasing lexicographic
order, and a package whose files are visited in another order, with the
entries of each scope visited in another order, emits the same sequence. -/
theorem printTypeLine_sorted_order_independent (Upper : Char → Bool) (w : Str)
    (pkg pkg2 : Package) (h : typesHaveSpecs pkg = true)
    (hre : Reordered pkg.Files pkg2.Files) :
    ∃ names : List Str,
      sortedNames Upper pkg ObjKind.Typ = some names ∧
      printTypeLine Upper w pkg ObjKind.Typ "\t%s\x7b\x7d,\n".toList =
        some (w ++ names.flatMap fun n => "\t".toList ++ n ++ "\x7b\x7d,\n".toList) ∧
      names.Sorted (· ≤ ·) ∧
      sortedNames Upper pkg2 ObjKind.Typ = some names ∧
      printTypeLine Upper w pkg2 ObjKind.Typ "\t%s\x7b\x7d,\n".toList =
        some (w ++ names.flatMap fun n => "\t".toList ++ n ++ "\x7b\x7d,\n".toList) := by
  have h2 : sortedNames Upper pkg2 ObjKind.Typ = sortedNames Upper pkg ObjKind.Typ :=
    (scanFiles_reordered Upper ObjKind.Typ hre).symm
  refine ⟨sortStrings (structNames Upper pkg.Files), sortedNames_eq Upper pkg h,
    printTypeLine_eq Upper w pkg h, sortStrings_sorted _, ?_, ?_⟩
  · rw [h2]; exact sortedNames_eq Upper pkg h
  · have := printTypeLine_eq Upper w pkg h
    unfold printTypeLine at this ⊢
    rw [h2]; exact this

/-- Witness of C3: two files in source order against the same declarations
visited in another order. -/
theorem printTypeLine_sorted_order_independent_witness :
    typesHaveSpecs fooBarBazTwoFiles = true ∧
    Reordered fooBarBazTwoFiles.Files fooBarBazShuffled.Files ∧
    ∃ names : List Str,
      sortedNames noUpper fooBarBazTwoFiles ObjKind.Typ = some names ∧
      printTypeLine noUpper [] fooBarBazTwoFiles ObjKind.Typ "\t%s\x7b\x7d,\n".toList =
        some ([] ++ names.flatMap fun n => "\t".toList ++ n ++ "\x7b\x7d,\n".toList) ∧
      names.Sorted (· ≤ ·) ∧
      sortedNames noUpper fooBarBazShuffled ObjKind.Typ = some names ∧
      printTypeLine noUpper [] fooBarBazShuffled ObjKind.Typ "\t%s\x7b\x7d,\n".toList =
        some ([] ++ names.flatMap fun n => "\t".toList ++ n ++ "\x7b\x7d,\n".toList) :=
  have hre : Reordered fooBarBazTwoFiles.Files fooBarBazShuffled.Files :=
    ⟨fooBarBazShuffled.Files.reverse, by
      refine List.Forall₂.cons ?_ (List.Forall₂.cons ?_ List.Forall₂.nil) <;> decide,
      List.reverse_perm _⟩
  ⟨by decide, hre,
    printTypeLine_sorted_order_independent noUpper [] fooBarBazTwoFiles fooBarBazShuffled
      (by decide) hre⟩

theorem structNames_eq_flatMap (Upper : Char → Bool) (files : List (Str × File)) :
    structNames Upper files = files.flatMap fun f => fileStructNames Upper f.2 := by
  induction files with
  | nil => rfl
  | cons f rest ih =>
    have : structNames Upper (f :: rest) = fileStructNames Upper f.2 ++ structNames Upper rest := by
      simp [structNames, pkgObjects, fileStructNames, List.filter_append]
    rw [this, ih, List.flatMap_cons]

theorem fileStructNames_nodup (Upper : Char → Bool) (f : File)
    (h : (f.Scope.Objects.map Prod.fst).Nodup) : (fileStructNames Upper f).Nodup :=
  List.Nodup.sublist ((List.filter_sublist _).map _) h

theorem occurrences_nodup (l : List Str) (n : Str) (h : l.Nodup) :
    (l.filter fun m => decide (m = n)).length = if n ∈ l then 1 else 0 := by
  induction l with
  | nil => rfl
  | cons a rest ih =>
    rw [List.nodup_cons] at h
    have ih2 := ih h.2
    rw [List.filter_cons]
    by_cases ha : a = n
    · subst ha
      rw [if_neg h.1] at ih2
      simp [ih2]
    · have hne : ¬ n = a := fun e => ha e.symm
      by_cases hr : n ∈ rest
      · simp [ha, hne, hr, ih2]
      · simp [ha, hne, hr, ih2]

theorem count_structNames (Upper : Char → Bool) (files : List (Str × File)) (n : Str)
    (h : ∀ f ∈ files, (f.2.Scope.Objects.map Prod.fst).Nodup) :
    ((structNames Upper files).filter fun m => decide (m = n)).length =
      (files.filter fun f => decide (n ∈ fileStructNames Upper f.2)).length := by
  rw [structNames_eq_flatMap]
  induction files with
  | nil => rfl
  | cons f rest ih =>
    have hf := fileStructNames_nodup Upper f.2 (h f (List.mem_cons_self _ _))
    have ih2 := ih fun g hg => h g (List.mem_cons_of_mem _ hg)
    rw [List.flatMap_cons, List.filter_append, List.length_append, ih2, List.filter_cons,
      occurrences_nodup _ n hf]
    by_cases hn : n ∈ fileStructNames Upper f.2
    · simp [hn, Nat.add_comm]
    · simp [hn]

/-- C4, as the code behaves: two files that each declare `type Foo struct{}`
make `printTypeLine` emit `Foo` twice. -/
theorem printTypeLine_duplicate_counterexample :
    typesHaveSpecs fooTwice = true ∧
    (fooTwice.Files.map Prod.fst).Nodup ∧
    sortedNames noUpper fooTwice ObjKind.Typ = some ["Foo".toList, "Foo".toList] ∧
    ¬ ["Foo".toList, "Foo".toList].Nodup ∧
    printTypeLine noUpper [] fooTwice ObjKind.Typ "\t%s\x7b\x7d,\n".toList =
      some "\tFoo\x7b\x7d,\n\tFoo\x7b\x7d,\n".toList := by
  refine ⟨by decide, by decide, by decide, by decide, by decide⟩

/-- C4 amended: a name is emitted once for every file that declares it as an
exported struct type, so the emitted list is free of duplicates when no two
files of the package declare the same exported struct type name. -/
theorem printTypeLine_once_per_declaring_file (Upper : Char → Bool) (w : Str) (pkg : Package)
    (h : typesHaveSpecs pkg = true) (hkeys : scopeKeysDistinct pkg) :
    ∃ names : List Str,
      sortedNames Upper pkg ObjKind.Typ = some names ∧
      printTypeLine Upper w pkg ObjKind.Typ "\t%s\x7b\x7d,\n".toList =
        some (w ++ names.flatMap fun n => "\t".toList ++ n ++ "\x7b\x7d,\n".toList) ∧
      (∀ n : Str, (names.filter fun m => decide (m = n)).length = declaringFiles Upper pkg n) ∧
      (pkg.Files.Pairwise
          (fun f g => List.Disjoint (fileStructNames Upper f.2) (fileStructNames Upper g.2)) →
        names.Nodup) := by
  refine ⟨sortStrings (structNames Upper pkg.Files), sortedNames_eq Upper pkg h,
    printTypeLine_eq Upper w pkg h, fun n => ?_, fun hpw => ?_⟩
  · rw [((sortStrings_perm _).filter _).length_eq]
    exact count_structNames Upper pkg.Files n hkeys
  · rw [(sortStrings_perm _).nodup_iff, structNames_eq_flatMap, List.nodup_flatMap]
    exact ⟨fun f hf => fileStructNames_nodup Upper f.2 (hkeys f hf), hpw⟩

/-- Witness of the amended C4 on a package of two files with distinct names. -/
theorem printTypeLine_once_per_declaring_file_witness :
    typesHaveSpecs fooBarBazTwoFiles = true ∧ scopeKeysDistinct fooBarBazTwoFiles ∧
    ∃ names : List Str,
      sortedNames noUpper fooBarBazTwoFiles ObjKind.Typ = some names ∧
      printTypeLine noUpper [] fooBarBazTwoFiles ObjKind.Typ "\t%s\x7b\x7d,\n".toList =
        some ([] ++ names.flatMap fun n => "\t".toList ++ n ++ "\x7b\x7d,\n".toList) ∧
      (∀ n : Str, (names.filter fun m => decide (m = n)).length =
        declaringFiles noUpper fooBarBazTwoFiles n) ∧
      (fooBarBazTwoFiles.Files.Pairwise
          (fun f g => List.Disjoint (fileStructNames noUpper f.2) (fileStructNames noUpper g.2)) →
        names.Nodup) :=
  have hkeys : scopeKeysDistinct fooBarBazTwoFiles := by
    intro f hf
    simp only [fooBarBazTwoFiles, List.mem_cons, List.mem_singleton, List.not_mem_nil,
      or_false] at hf
    rcases hf with rfl | rfl <;> decide
  ⟨by decide, hkeys,
    printTypeLine_once_per_declaring_file noUpper [] fooBarBazTwoFiles (by decide) hkeys⟩

/-! ## The rendered buffer -/

theorem renderPackage_eq (Upper : Char → Bool) (pkg : Package) (ns : List Str)
    (h : sortedNames Upper pkg ObjKind.Typ = some ns) :
    renderPackage Upper pkg =
      some (Sprintln [headerText] ++ Sprintln ["package".toList, pkg.Name] ++ Sprintln [[]] ++
        importText ++ Sprintln ["var structTypes = []interface\x7b\x7d\x7b".toList] ++
        listingLines ns ++ Sprintln ["\x7d".toList] ++ Sprintln [[]] ++
        Sprintln [generateProtosText]) := by
  unfold renderPackage printTypeLine
  simp only [h, hasEnums, Bool.false_eq_true, if_false]
  rw [show ("\t%s\x7b\x7d,\n".toList : Str) = typeFormat from rfl, emitNames_typeFormat]
  rfl

/-- C5: for a package named `p` whose collected names are `ns`, the rendered
buffer is the do-not-edit header, `package p`, the import block, the line
opening `structTypes`, one line with a tab, the name and `{},` per name of
`ns` in order, the closing `}` line and the `GenerateProtos` function; for
empty `ns` the opening line is directly followed by the closing line. -/
theorem renderPackage_template (Upper : Char → Bool) (pkg : Package) (ns : List Str)
    (h : sortedNames Upper pkg ObjKind.Typ = some ns) :
    renderPackage Upper pkg = some (
      "// Code generated by github.com/Liamsi/protogenerat0r DO NOT EDIT.\n\n".toList ++
      "package ".toList ++ pkg.Name ++ "\n".toList ++
      "\n".toList ++
      ("import (\n\t\"os\"\n\n" ++
       "\t// we use dedis\x27 protobuf library to generate proto files from go-structs\n" ++
       "\t// see: https://github.com/dedis/protobuf#generating-proto-files\n" ++
       "\t\"github.com/dedis/protobuf\"\n)\n\n").toList ++
      "var structTypes = []interface\x7b\x7d\x7b\n".toList ++
      (ns.flatMap fun n => "\t".toList ++ n ++ "\x7b\x7d,\n".toList) ++
      "\x7d\n".toList ++
      "\n".toList ++
      ("\n// Call this method to generate protobuf messages: \n" ++
       "func GenerateProtos() \x7b\n" ++
       "\t// see: https://github.com/dedis/protobuf#generating-proto-files\n" ++
       "\tprotobuf.GenerateProtobufDefinition(os.Stdout, structTypes, nil, nil)\n" ++
       "\x7d\n").toList) ∧
    (ns = [] → renderPackage Upper pkg = some (
      "// Code generated by github.com/Liamsi/protogenerat0r DO NOT EDIT.\n\n".toList ++
      "package ".toList ++ pkg.Name ++ "\n".toList ++
      "\n".toList ++
      ("import (\n\t\"os\"\n\n" ++
       "\t// we use dedis\x27 protobuf library to generate proto files from go-structs\n" ++
       "\t// see: https://github.com/dedis/protobuf#generating-proto-files\n" ++
       "\t\"github.com/dedis/protobuf\"\n)\n\n").toList ++
      "var structTypes = []interface\x7b\x7d\x7b\n\x7d\n".toList ++
      "\n".toList ++
      ("\n// Call this method to generate protobuf messages: \n" ++
       "func GenerateProtos() \x7b\n" ++
       "\t// see: https://github.com/dedis/protobuf#generating-proto-files\n" ++
       "\tprotobuf.GenerateProtobufDefinition(os.Stdout, structTypes, nil, nil)\n" ++
       "\x7d\n").toList)) := by
  have e1 : Sprintln [headerText] =
      "// Code generated by github.com/Liamsi/protogenerat0r DO NOT EDIT.\n\n".toList := rfl
  have e2 : Sprintln ["package".toList, pkg.Name] =
      "package ".toList ++ pkg.Name ++ "\n".toList := by
    simp [Sprintln, List.intercalate]
  have e3 : Sprintln [[]] = "\n".toList := rfl
  have e4 : importText = ("import (\n\t\"os\"\n\n" ++
       "\t// we use dedis\x27 protobuf library to generate proto files from go-structs\n" ++
       "\t// see: https://github.com/dedis/protobuf#generating-proto-files\n" ++
       "\t\"github.com/dedis/protobuf\"\n)\n\n").toList := rfl
  have e5 : Sprintln ["var structTypes = []interface\x7b\x7d\x7b".toList] =
      "var structTypes = []interface\x7b\x7d\x7b\n".toList := rfl
  have e6 : Sprintln ["\x7d".toList] = "\x7d\n".toList := rfl
  have e7 : Sprintln [generateProtosText] =
      ("\n// Call this method to generate protobuf messages: \n" ++
       "func GenerateProtos() \x7b\n" ++
       "\t// see: https://github.com/dedis/protobuf#generating-proto-files\n" ++
       "\tprotobuf.GenerateProtobufDefinition(os.Stdout, structTypes, nil, nil)\n" ++
       "\x7d\n").toList := rfl
  have e8 : ("var structTypes = []interface\x7b\x7d\x7b\n\x7d\n".toList : Str) =
      "var structTypes = []interface\x7b\x7d\x7b\n".toList ++ "\x7d\n".toList := rfl
  rw [renderPackage_eq Upper pkg ns h, e1, e2, e3, e4, e5, e6, e7, e8]
  constructor
  · simp only [listingLines, List.append_assoc]
  · rintro rfl
    simp only [listingLines, List.flatMap_nil, List.append_nil, List.nil_append,
      List.append_assoc]

set_option maxRecDepth 100000 in
/-- Witness of C5: the whole generated file of the package declaring `Foo`,
`bar` and `Baz`. -/
theorem renderPackage_template_witness :
    sortedNames noUpper fooBarBaz ObjKind.Typ = some ["Foo".toList] ∧
    renderPackage noUpper fooBarBaz = some (
      "// Code generated by github.com/Liamsi/protogenerat0r DO NOT EDIT.\n\n" ++
      "package demo\n" ++
      "\n" ++
      "import (\n\t\"os\"\n\n" ++
      "\t// we use dedis\x27 protobuf library to generate proto files from go-structs\n" ++
      "\t// see: https://github.com/dedis/protobuf#generating-proto-files\n" ++
      "\t\"github.com/dedis/protobuf\"\n)\n\n" ++
      "var structTypes = []interface\x7b\x7d\x7b\n" ++
      "\tFoo\x7b\x7d,\n" ++
      "\x7d\n" ++
      "\n" ++
      "\n// Call this method to generate protobuf messages: \n" ++
      "func GenerateProtos() \x7b\n" ++
      "\t// see: https://github.com/dedis/protobuf#generating-proto-files\n" ++
      "\tprotobuf.GenerateProtobufDefinition(os.Stdout, structTypes, nil, nil)\n" ++
      "\x7d\n").toList :=
  ⟨rfl, (renderPackage_template noUpper fooBarBaz ["Foo".toList] rfl).1.trans rfl⟩

/-! ## Lemmas on the file system and the write gate -/

theorem mapGet_mapSet_self (m : List (Str × β)) (k : Str) (v : β) :
    mapGet (mapSet m k v) k = some v := by
  induction m with
  | nil => simp [mapSet, mapGet]
  | cons e rest ih =>
    obtain ⟨k1, v1⟩ := e
    by_cases h : k1 = k
    · simp [mapSet, mapGet, h]
    · simp [mapSet, mapGet, h, ih]

theorem mapGet_mapSet_ne (m : List (Str × β)) (k k2 : Str) (v : β) (hne : k2 ≠ k) :
    mapGet (mapSet m k v) k2 = mapGet m k2 := by
  induction m with
  | nil =>
    have : ¬ k = k2 := fun e => hne e.symm
    simp [mapSet, mapGet, this]
  | cons e rest ih =>
    obtain ⟨k1, v1⟩ := e
    by_cases h : k1 = k
    · subst h
      have : ¬ k1 = k2 := fun e => hne e.symm
      simp [mapSet, mapGet, this]
    · by_cases h2 : k1 = k2
      · subst h2
        simp [mapSet, mapGet, h]
      · simp [mapSet, mapGet, h, h2, ih]

theorem commit_cases (cfg : Config) (files : List (Str × Str)) (dirs : List Str) (buf : Str)
    (files1 : List (Str × Str)) (k : Nat) (h : commit cfg files dirs buf = some (files1, k)) :
    (files1 = files ∧ k = 0 ∧
        (cfg.stdout = true ∨ buf = (ReadFile files dirs cfg.gofile).getD [])) ∨
      (files1 = mapSet files cfg.gofile buf ∧ k = 1 ∧ cfg.stdout = false ∧
        cfg.gofile ∉ dirs ∧ buf ≠ (ReadFile files dirs cfg.gofile).getD []) := by
  unfold commit at h
  by_cases hs : cfg.stdout = true
  · simp only [hs, if_true, Option.some.injEq, Prod.mk.injEq] at h
    exact Or.inl ⟨h.1.symm, h.2.symm, Or.inl hs⟩
  · have hs2 : cfg.stdout = false := by simpa using hs
    simp only [hs2, Bool.false_eq_true, if_false] at h
    by_cases hb : buf = (ReadFile files dirs cfg.gofile).getD []
    · simp only [ne_eq, hb, not_true_eq_false, if_false, Option.some.injEq, Prod.mk.injEq] at h
      exact Or.inl ⟨h.1.symm, h.2.symm, Or.inr hb⟩
    · simp only [ne_eq, hb, not_false_eq_true, if_true, WriteFile] at h
      by_cases hd : cfg.gofile ∈ dirs
      · simp [hd] at h
      · simp only [hd, if_false, Option.some.injEq, Prod.mk.injEq] at h
        exact Or.inr ⟨h.1.symm, h.2.symm, hs2, hd, hb⟩

theorem commit_idem (cfg : Config) (files : List (Str × Str)) (dirs : List Str) (buf : Str)
    (files1 : List (Str × Str)) (k : Nat) (h : commit cfg files dirs buf = some (files1, k)) :
    commit cfg files1 dirs buf = some (files1, 0) := by
  rcases commit_cases cfg files dirs buf files1 k h with ⟨rfl, _, hs | hb⟩ | ⟨rfl, _, hs, hd, _⟩
  · simp [commit, hs]
  · unfold commit
    by_cases hs : cfg.stdout = true
    · simp [hs]
    · simp [hs, ← hb]
  · simp [commit, hs, ReadFile, hd, mapGet_mapSet_self]

/-- Outside the hypothesis of the write-gate theorem: when the target path is a
directory, reading fails, the old bytes count as empty, and the write of
non-empty bytes fails, which makes the program panic. -/
theorem commit_target_directory (cfg : Config) (files : List (Str × Str)) (dirs : List Str)
    (buf : Str) (hmode : cfg.stdout = false) (hdir : cfg.gofile ∈ dirs) (hbuf : buf ≠ []) :
    commit cfg files dirs buf = none := by
  simp [commit, hmode, ReadFile, WriteFile, hdir, hbuf]

theorem commit_total (cfg : Config) (files : List (Str × Str)) (dirs : List Str) (buf : Str)
    (hmode : cfg.stdout = false) (htarget : cfg.gofile ∉ dirs) :
    ∃ (files1 : List (Str × Str)) (k : Nat),
      commit cfg files dirs buf = some (files1, k) ∧
      (ReadFile files1 dirs cfg.gofile).getD [] = buf ∧
      (buf ≠ (ReadFile files dirs cfg.gofile).getD [] → k = 1) := by
  by_cases hb : buf = (ReadFile files dirs cfg.gofile).getD []
  · exact ⟨files, 0, by simp [commit, hmode, ← hb], hb.symm, fun h => absurd hb h⟩
  · exact ⟨mapSet files cfg.gofile buf, 1, by simp [commit, hmode, hb, WriteFile, htarget],
      by simp [ReadFile, htarget, mapGet_mapSet_self], fun _ => rfl⟩

/-- C7: in file mode, for a target that is a regular file or absent, the
write gate calls `WriteFile` exactly when the new bytes differ from the
target's bytes (absent counting as empty); afterwards the target holds the
new bytes (absent counting as empty) and every other path reads as before. -/
theorem commit_writes_iff_changed (cfg : Config) (files : List (Str × Str)) (dirs : List Str)
    (newFileData : Str) (hmode : cfg.stdout = false) (htarget : cfg.gofile ∉ dirs) :
    ∃ (files1 : List (Str × Str)) (k : Nat),
      commit cfg files dirs newFileData = some (files1, k) ∧
      (k = 1 ↔ newFileData ≠ (ReadFile files dirs cfg.gofile).getD []) ∧
      (k = 0 ↔ newFileData = (ReadFile files dirs cfg.gofile).getD []) ∧
      (ReadFile files1 dirs cfg.gofile).getD [] = newFileData ∧
      ∀ name : Str, name ≠ cfg.gofile → ReadFile files1 dirs name = ReadFile files dirs name := by
  by_cases hb : newFileData = (ReadFile files dirs cfg.gofile).getD []
  · refine ⟨files, 0, ?_, ?_, ?_, hb.symm, fun _ _ => rfl⟩
    · simp [commit, hmode, ← hb]
    · simp [hb]
    · simp [hb]
  · refine ⟨mapSet files cfg.gofile newFileData, 1, ?_, ?_, ?_, ?_, fun name hne => ?_⟩
    · simp [commit, hmode, hb, WriteFile, htarget]
    · simp [hb]
    · simp [hb]
    · simp [ReadFile, htarget, mapGet_mapSet_self]
    · simp only [ReadFile, mapGet_mapSet_ne files cfg.gofile name newFileData hne]

/-- Witness of C7: an absent target is created, the source file is kept. -/
theorem commit_writes_iff_changed_witness :
    demoConfig.stdout = false ∧ demoConfig.gofile ∉ ["sub".toList] ∧
    ∃ (files1 : List (Str × Str)) (k : Nat),
      commit demoConfig [("a.go".toList, srcAlpha)] ["sub".toList] renderedAlpha =
        some (files1, k) ∧
      (k = 1 ↔ renderedAlpha ≠
        (ReadFile [("a.go".toList, srcAlpha)] ["sub".toList] demoConfig.gofile).getD []) ∧
      (k = 0 ↔ renderedAlpha =
        (ReadFile [("a.go".toList, srcAlpha)] ["sub".toList] demoConfig.gofile).getD []) ∧
      (ReadFile files1 ["sub".toList] demoConfig.gofile).getD [] = renderedAlpha ∧
      ∀ name : Str, name ≠ demoConfig.gofile →
        ReadFile files1 ["sub".toList] name =
          ReadFile [("a.go".toList, srcAlpha)] ["sub".toList] name :=
  ⟨rfl, by decide,
    commit_writes_iff_changed demoConfig [("a.go".toList, srcAlpha)] ["sub".toList]
      renderedAlpha rfl (by decide)⟩

/-! ## `ParseDir` and the target file -/

theorem parseDirStep_dir (parse : Str → Option File) (gofile : Str)
    (st : List (Str × Package) × Bool) (name : Str) (c : Option Str) :
    parseDirStep parse (filter gofile) st ⟨name, true⟩ c = st := by
  simp [parseDirStep, filter]

theorem parseDirStep_target (parse : Str → Option File) (gofile : Str)
    (st : List (Str × Package) × Bool) (c : Option Str) :
    parseDirStep parse (filter gofile) st ⟨gofile, false⟩ c = st := by
  simp [parseDirStep, filter]

theorem foldl_dirs (parse : Str → Option File) (gofile : Str) (dirs : List Str)
    (st : List (Str × Package) × Bool) :
    dirs.foldl (fun st name => parseDirStep parse (filter gofile) st ⟨name, true⟩ none) st =
      st := by
  induction dirs generalizing st with
  | nil => rfl
  | cons d rest ih => rw [List.foldl_cons, parseDirStep_dir, ih]

/-- With the program's filter, `ParseDir` is a fold over the regular files. -/
theorem ParseDir_eq (parse : Str → Option File) (gofile : Str) (files : List (Str × Str))
    (dirs : List Str) :
    ParseDir parse files dirs (filter gofile) =
      files.foldl (fun st e => parseDirStep parse (filter gofile) st ⟨e.1, false⟩ (some e.2))
        ([], false) := by
  unfold ParseDir
  exact foldl_dirs parse gofile dirs _

theorem foldl_mapSet_target (parse : Str → Option File) (gofile : Str)
    (files : List (Str × Str)) (v : Str) (st : List (Str × Package) × Bool) :
    (mapSet files gofile v).foldl
        (fun st e => parseDirStep parse (filter gofile) st ⟨e.1, false⟩ (some e.2)) st =
      files.foldl
        (fun st e => parseDirStep parse (filter gofile) st ⟨e.1, false⟩ (some e.2)) st := by
  induction files generalizing st with
  | nil => simp [mapSet, parseDirStep_target]
  | cons e rest ih =>
    obtain ⟨k1, v1⟩ := e
    by_cases h : k1 = gofile
    · subst h
      simp [mapSet, parseDirStep_target]
    · simp [mapSet, h, ih]

theorem ParseDir_mapSet_target (parse : Str → Option File) (gofile : Str)
    (files : List (Str × Str)) (dirs dirs2 : List Str) (v : Str) :
    ParseDir parse (mapSet files gofile v) dirs (filter gofile) =
      ParseDir parse files dirs2 (filter gofile) := by
  rw [ParseDir_eq, ParseDir_eq, foldl_mapSet_target]

/-- C9: a file named as the configured target is never parsed: the packages
of a directory, and so the names collected for them, are the same with and
without such a file, whatever it contains, and a directory holding only that
file yields no package and no name. -/
theorem target_file_never_parsed (Upper : Char → Bool) (parse : Str → Option File)
    (gofile : Str) (pre post : List (Str × Str)) (data : Str) (dirs : List Str) :
    ParseDir parse (pre ++ (gofile, data) :: post) dirs (filter gofile) =
      ParseDir parse (pre ++ post) dirs (filter gofile) ∧
    dirListings Upper parse gofile (pre ++ (gofile, data) :: post) dirs =
      dirListings Upper parse gofile (pre ++ post) dirs ∧
    ParseDir parse [(gofile, data)] dirs (filter gofile) = ([], false) ∧
    dirListings Upper parse gofile [(gofile, data)] dirs = [] := by
  have h1 : ParseDir parse (pre ++ (gofile, data) :: post) dirs (filter gofile) =
      ParseDir parse (pre ++ post) dirs (filter gofile) := by
    rw [ParseDir_eq, ParseDir_eq, List.foldl_append, List.foldl_append, List.foldl_cons,
      parseDirStep_target]
  have h2 : ParseDir parse [(gofile, data)] dirs (filter gofile) = ([], false) := by
    rw [ParseDir_eq, List.foldl_cons, parseDirStep_target]; rfl
  refine ⟨h1, ?_, h2, ?_⟩
  · unfold dirListings; rw [h1]
  · unfold dirListings; rw [h2]; rfl

/-! ## The package loop -/

theorem commit_target (cfg : Config) (files : List (Str × Str)) (dirs : List Str) (buf : Str)
    (files1 : List (Str × Str)) (k : Nat) (hmode : cfg.stdout = false)
    (h : commit cfg files dirs buf = some (files1, k)) :
    (ReadFile files1 dirs cfg.gofile).getD [] = buf := by
  rcases commit_cases cfg files dirs buf files1 k h with ⟨rfl, _, hs | hb⟩ | ⟨rfl, _, _, hd, _⟩
  · rw [hmode] at hs; cases hs
  · exact hb.symm
  · simp [ReadFile, hd, mapGet_mapSet_self]

theorem commit_other (cfg : Config) (files : List (Str × Str)) (dirs : List Str) (buf : Str)
    (files1 : List (Str × Str)) (k : Nat)
    (h : commit cfg files dirs buf = some (files1, k)) (name : Str) (hne : name ≠ cfg.gofile) :
    ReadFile files1 dirs name = ReadFile files dirs name := by
  rcases commit_cases cfg files dirs buf files1 k h with ⟨rfl, _, _⟩ | ⟨rfl, _, _, _, _⟩
  · rfl
  · simp only [ReadFile, mapGet_mapSet_ne files cfg.gofile name buf hne]

theorem packageLoop_cons (Upper : Char → Bool) (cfg : Config) (dirs : List Str)
    (p : Str × Package) (rest : List (Str × Package)) (files : List (Str × Str)) (n : Nat)
    (files1 : List (Str × Str)) (n1 : Nat)
    (h : packageLoop Upper cfg dirs (p :: rest) files n = some (files1, n1)) :
    ∃ (buf : Str) (files2 : List (Str × Str)) (k : Nat),
      renderPackage Upper p.2 = some buf ∧ commit cfg files dirs buf = some (files2, k) ∧
      packageLoop Upper cfg dirs rest files2 (n + k) = some (files1, n1) := by
  obtain ⟨nm, pkg⟩ := p
  unfold packageLoop at h
  cases hr : renderPackage Upper pkg with
  | none => simp [hr] at h
  | some buf =>
    cases hc : commit cfg files dirs buf with
    | none => simp [hr, hc] at h
    | some r =>
      obtain ⟨files2, k⟩ := r
      simp only [hr, hc] at h
      exact ⟨buf, files2, k, rfl, hc, h⟩

/-- C10 amended: in file mode every package of a directory is written to the
one target file of the directory: after the package loop that file holds the
rendering of the package visited last, and every other path reads as it did
before the loop. -/
theorem packageLoop_target_holds_last (Upper : Char → Bool) (cfg : Config) (dirs : List Str)
    (pkgs : List (Str × Package)) (files : List (Str × Str)) (n : Nat)
    (files1 : List (Str × Str)) (n1 : Nat) (last : Str × Package)
    (hmode : cfg.stdout = false)
    (hrun : packageLoop Upper cfg dirs pkgs files n = some (files1, n1))
    (hlast : pkgs.getLast? = some last) :
    renderPackage Upper last.2 = some ((ReadFile files1 dirs cfg.gofile).getD []) ∧
    ∀ name : Str, name ≠ cfg.gofile → ReadFile files1 dirs name = ReadFile files dirs name := by
  induction pkgs generalizing files n with
  | nil => simp at hlast
  | cons p rest ih =>
    obtain ⟨buf, files2, k, hr, hc, hrest⟩ :=
      packageLoop_cons Upper cfg dirs p rest files n files1 n1 hrun
    cases rest with
    | nil =>
      simp only [List.getLast?_singleton, Option.some.injEq] at hlast
      subst hlast
      simp only [packageLoop, Option.some.injEq, Prod.mk.injEq] at hrest
      obtain ⟨rfl, _⟩ := hrest
      exact ⟨by rw [commit_target cfg files dirs buf files2 k hmode hc]; exact hr,
        fun name hne => commit_other cfg files dirs buf files2 k hc name hne⟩
    | cons q rest2 =>
      have hlast2 : (q :: rest2).getLast? = some last := by
        rw [List.getLast?_cons_cons] at hlast; exact hlast
      obtain ⟨h1, h2⟩ := ih files2 (n + k) hrest hlast2
      exact ⟨h1, fun name hne =>
        (h2 name hne).trans (commit_other cfg files dirs buf files2 k hc name hne)⟩

set_option maxRecDepth 100000 in
/-- Witness of the amended C10 on the directory with the packages `alpha` and
`beta`. -/
theorem packageLoop_target_holds_last_witness :
    demoConfig.stdout = false ∧
    packageLoop noUpper demoConfig []
        [("alpha".toList, pkgAlpha), ("beta".toList, pkgBeta)] twoPackageDir.files 0 =
      some (twoPackageDir.files ++ [("proto_generator.go".toList, renderedBeta)], 2) ∧
    renderPackage noUpper pkgBeta = some ((ReadFile
      (twoPackageDir.files ++ [("proto_generator.go".toList, renderedBeta)]) []
      demoConfig.gofile).getD []) ∧
    ∀ name : Str, name ≠ demoConfig.gofile →
      ReadFile (twoPackageDir.files ++ [("proto_generator.go".toList, renderedBeta)]) [] name =
        ReadFile twoPackageDir.files [] name :=
  have hrun : packageLoop noUpper demoConfig []
        [("alpha".toList, pkgAlpha), ("beta".toList, pkgBeta)] twoPackageDir.files 0 =
      some (twoPackageDir.files ++ [("proto_generator.go".toList, renderedBeta)], 2) := by
    decide
  ⟨rfl, hrun,
    packageLoop_target_holds_last noUpper demoConfig []
      [("alpha".toList, pkgAlpha), ("beta".toList, pkgBeta)] twoPackageDir.files 0
      (twoPackageDir.files ++ [("proto_generator.go".toList, renderedBeta)]) 2
      ("beta".toList, pkgBeta) rfl hrun rfl⟩

set_option maxRecDepth 100000 in
/-- C10, as the code behaves: a directory with the two packages `alpha` and
`beta` ends up with a single generated file, which holds the rendering of
`beta`; no file holds the rendering of `alpha`. -/
theorem packageLoop_overwrites_counterexample :
    ParseDir demoParse twoPackageDir.files [] (filter demoConfig.gofile) =
      ([("alpha".toList, pkgAlpha), ("beta".toList, pkgBeta)], false) ∧
    (renderPackage noUpper pkgAlpha).isSome = true ∧
    (packageLoop noUpper demoConfig []
        [("alpha".toList, pkgAlpha), ("beta".toList, pkgBeta)] twoPackageDir.files 0).map
      (fun r => r.1.map Prod.fst) =
      some ["a.go".toList, "b.go".toList, "proto_generator.go".toList] ∧
    (packageLoop noUpper demoConfig []
        [("alpha".toList, pkgAlpha), ("beta".toList, pkgBeta)] twoPackageDir.files 0).bind
      (fun r => mapGet r.1 "proto_generator.go".toList) = renderPackage noUpper pkgBeta ∧
    (packageLoop noUpper demoConfig []
        [("alpha".toList, pkgAlpha), ("beta".toList, pkgBeta)] twoPackageDir.files 0).map
      (fun r => r.1.any fun f => decide (some f.2 = renderPackage noUpper pkgAlpha)) =
      some false := by
  refine ⟨by decide, by decide, by decide, by decide, by decide⟩

/-! ## Running `parseDir` twice -/

theorem parseSubdirs_names (Upper : Char → Bool) (parse : Str → Option File) (cfg : Config)
    (subs subs1 : List (Str × Dir)) (m : Nat)
    (h : parseSubdirs Upper parse cfg subs = some (subs1, m)) :
    subs1.map Prod.fst = subs.map Prod.fst := by
  induction subs generalizing subs1 m with
  | nil =>
    simp only [parseSubdirs, Option.some.injEq, Prod.mk.injEq] at h
    rw [← h.1]
  | cons e rest ih =>
    obtain ⟨name, d⟩ := e
    rw [parseSubdirs] at h
    cases hd : parseDir Upper parse cfg d with
    | none => simp [hd] at h
    | some r =>
      obtain ⟨d1, n⟩ := r
      cases hr : parseSubdirs Upper parse cfg rest with
      | none => simp [hd, hr] at h
      | some r2 =>
        obtain ⟨rest1, m2⟩ := r2
        simp only [hd, hr, Option.some.injEq, Prod.mk.injEq] at h
        rw [← h.1, List.map_cons, List.map_cons, ih rest1 m2 hr]

theorem packageLoop_parse_invariant (Upper : Char → Bool) (parse : Str → Option File)
    (cfg : Config) (dirs : List Str) (pkgs : List (Str × Package)) (files : List (Str × Str))
    (n : Nat) (files1 : List (Str × Str)) (n1 : Nat) (dirs2 dirs3 : List Str)
    (h : packageLoop Upper cfg dirs pkgs files n = some (files1, n1)) :
    ParseDir parse files1 dirs2 (filter cfg.gofile) =
      ParseDir parse files dirs3 (filter cfg.gofile) := by
  induction pkgs generalizing files n with
  | nil =>
    simp only [packageLoop, Option.some.injEq, Prod.mk.injEq] at h
    rw [← h.1, ParseDir_eq, ParseDir_eq]
  | cons p rest ih =>
    obtain ⟨buf, files2, k, _, hc, hrest⟩ :=
      packageLoop_cons Upper cfg dirs p rest files n files1 n1 h
    rw [ih files2 (n + k) hrest]
    rcases commit_cases cfg files dirs buf files2 k hc with ⟨rfl, _, _⟩ | ⟨rfl, _, _, _, _⟩
    · rfl
    · exact ParseDir_mapSet_target parse cfg.gofile files dirs3 dirs3 buf

theorem packageLoop_idem (Upper : Char → Bool) (cfg : Config) (dirs : List Str)
    (pkgs : List (Str × Package)) (files : List (Str × Str)) (files1 : List (Str × Str))
    (n1 : Nat) (hlen : pkgs.length ≤ 1)
    (h : packageLoop Upper cfg dirs pkgs files 0 = some (files1, n1)) :
    packageLoop Upper cfg dirs pkgs files1 0 = some (files1, 0) := by
  match pkgs, hlen with
  | [], _ => rfl
  | [p], _ =>
    obtain ⟨buf, files2, k, hr, hc, hrest⟩ :=
      packageLoop_cons Upper cfg dirs p [] files 0 files1 n1 h
    simp only [packageLoop, Option.some.injEq, Prod.mk.injEq] at hrest
    obtain ⟨rfl, _⟩ := hrest
    obtain ⟨nm, pkg⟩ := p
    simp only [packageLoop, hr, commit_idem cfg files dirs buf files2 k hc]

mutual
theorem parseDir_idem (Upper : Char → Bool) (parse : Str → Option File) (cfg : Config) :
    ∀ (d d1 : Dir) (n : Nat), onePackagePerDir parse cfg.gofile d = true →
      parseDir Upper parse cfg d = some (d1, n) → parseDir Upper parse cfg d1 = some (d1, 0)
  | .mk files subs, d1, n, hone, hrun => by
    rw [onePackagePerDir, Bool.and_eq_true, decide_eq_true_eq] at hone
    rw [parseDir] at hrun
    generalize hP : ParseDir parse files (subs.map Prod.fst) (filter cfg.gofile) = P at hrun hone
    obtain ⟨pkgs, err⟩ := P
    cases err with
    | true => simp at hrun
    | false =>
      simp only at hrun
      cases hl : packageLoop Upper cfg (subs.map Prod.fst) pkgs files 0 with
      | none => simp [hl] at hrun
      | some r =>
        obtain ⟨files1, n1⟩ := r
        cases hs : parseSubdirs Upper parse cfg subs with
        | none => simp [hl, hs] at hrun
        | some r2 =>
          obtain ⟨subs1, m⟩ := r2
          simp only [hl, hs, Option.some.injEq, Prod.mk.injEq] at hrun
          obtain ⟨rfl, _⟩ := hrun
          have hnames := parseSubdirs_names Upper parse cfg subs subs1 m hs
          have hP2 : ParseDir parse files1 (subs1.map Prod.fst) (filter cfg.gofile) =
              (pkgs, false) := by
            rw [packageLoop_parse_invariant Upper parse cfg (subs.map Prod.fst) pkgs files 0
              files1 n1 (subs1.map Prod.fst) (subs.map Prod.fst) hl, hP]
          have hl2 := packageLoop_idem Upper cfg (subs.map Prod.fst) pkgs files files1 n1
            hone.1 hl
          have hs2 := parseSubdirs_idem Upper parse cfg subs subs1 m hone.2 hs
          rw [parseDir, hP2]
          simp only [hnames, hl2, hs2]
theorem parseSubdirs_idem (Upper : Char → Bool) (parse : Str → Option File) (cfg : Config) :
    ∀ (subs subs1 : List (Str × Dir)) (m : Nat),
      onePackagePerSubdir parse cfg.gofile subs = true →
      parseSubdirs Upper parse cfg subs = some (subs1, m) →
      parseSubdirs Upper parse cfg subs1 = some (subs1, 0)
  | [], subs1, m, _, hrun => by
    simp only [parseSubdirs, Option.some.injEq, Prod.mk.injEq] at hrun
    rw [← hrun.1]; rfl
  | (name, d) :: rest, subs1, m, hone, hrun => by
    rw [onePackagePerSubdir, Bool.and_eq_true] at hone
    rw [parseSubdirs] at hrun
    cases hd : parseDir Upper parse cfg d with
    | none => simp [hd] at hrun
    | some r =>
      obtain ⟨d1, n⟩ := r
      cases hr : parseSubdirs Upper parse cfg rest with
      | none => simp [hd, hr] at hrun
      | some r2 =>
        obtain ⟨rest1, m2⟩ := r2
        simp only [hd, hr, Option.some.injEq, Prod.mk.injEq] at hrun
        obtain ⟨rfl, _⟩ := hrun
        have h1 := parseDir_idem Upper parse cfg d d1 n hone.1 hd
        have h2 := parseSubdirs_idem Upper parse cfg rest rest1 m2 hone.2 hr
        rw [parseSubdirs]
        simp only [h1, h2]
end

/-- Whatever order the two packages of a directory are visited in and whatever
the target holds before, a run over two packages with different renderings
calls `WriteFile` at least once. -/
theorem packageLoop_two_packages_write (Upper : Char → Bool) (cfg : Config) (dirs : List Str)
    (p q : Str × Package) (a b : Str) (files : List (Str × Str))
    (hmode : cfg.stdout = false) (htarget : cfg.gofile ∉ dirs)
    (hp : renderPackage Upper p.2 = some a) (hq : renderPackage Upper q.2 = some b)
    (hab : a ≠ b) :
    ∃ (files1 : List (Str × Str)) (k : Nat),
      packageLoop Upper cfg dirs [p, q] files 0 = some (files1, k) ∧ 1 ≤ k := by
  obtain ⟨pn, pp⟩ := p
  obtain ⟨qn, qq⟩ := q
  obtain ⟨f1, k1, hc1, ht1, _⟩ := commit_total cfg files dirs a hmode htarget
  obtain ⟨f2, k2, hc2, _, hk2⟩ := commit_total cfg f1 dirs b hmode htarget
  have hk : k2 = 1 := hk2 (by rw [ht1]; exact fun e => hab e.symm)
  refine ⟨f2, 0 + k1 + k2, ?_, by omega⟩
  simp only [packageLoop, hp, hq, hc1, hc2]

set_option maxRecDepth 100000 in
/-- C6, as the code behaves: on a directory holding two packages the second
run over the unchanged sources calls `WriteFile` twice. -/
theorem parseDir_second_run_counterexample :
    (ParseDir demoParse twoPackageDir.files [] (filter demoConfig.gofile)).2 = false ∧
    (parseDir noUpper demoParse demoConfig twoPackageDir).isSome = true ∧
    (parseDir noUpper demoParse demoConfig twoPackageDir).bind
      (fun r => (parseDir noUpper demoParse demoConfig r.1).map Prod.snd) = some 2 := by
  refine ⟨by decide, by decide, by decide⟩

/-- C6 amended: when every directory of the tree holds at most one package
and a run of `parseDir` on the root completes, a second run on the resulting
tree completes, leaves the tree as it is and calls `WriteFile` zero times. -/
theorem parseDir_second_run_writes_nothing (Upper : Char → Bool) (parse : Str → Option File)
    (cfg : Config) (d d1 : Dir) (n : Nat)
    (hone : onePackagePerDir parse cfg.gofile d = true)
    (hrun : parseDir Upper parse cfg d = some (d1, n)) :
    parseDir Upper parse cfg d1 = some (d1, 0) :=
  parseDir_idem Upper parse cfg d d1 n hone hrun

set_option maxRecDepth 100000 in
/-- Witness of the amended C6: a root with package `alpha` and a
sub-directory with package `beta`; the first run writes two files. -/
theorem parseDir_second_run_writes_nothing_witness :
    onePackagePerDir demoParse demoConfig.gofile nestedDir = true ∧
    parseDir noUpper demoParse demoConfig nestedDir = some (nestedDirGenerated, 2) ∧
    parseDir noUpper demoParse demoConfig nestedDirGenerated = some (nestedDirGenerated, 0) :=
  have hrun : parseDir noUpper demoParse demoConfig nestedDir = some (nestedDirGenerated, 2) := by
    rfl
  ⟨by decide, hrun,
    parseDir_second_run_writes_nothing noUpper demoParse demoConfig nestedDir nestedDirGenerated 2
      (by decide) hrun⟩

/-! ## Adding a declaration -/

theorem sortedNames_some (Upper : Char → Bool) (pkg : Package) (kind : ObjKind)
    (ns : List Str) (h : sortedNames Upper pkg kind = some ns) :
    (pkgObjects pkg.Files).any (panics Upper kind) = false ∧
      ns = sortStrings (((pkgObjects pkg.Files).filter (listed Upper kind)).map Prod.fst) := by
  unfold sortedNames at h
  rw [scanFiles_eq] at h
  cases hp : (pkgObjects pkg.Files).any (panics Upper kind) with
  | true => simp [hp] at h
  | false =>
    simp only [hp, Bool.false_eq_true, if_false, Option.map_some', List.nil_append,
      Option.some.injEq] at h
    exact ⟨rfl, h.symm⟩

theorem listingLines_append (l r : List Str) :
    listingLines (l ++ r) = listingLines l ++ listingLines r := by
  simp [listingLines]

theorem listingLines_insert_ne (l r : List Str) (n : Str) :
    listingLines (l ++ n :: r) ≠ listingLines (l ++ r) := by
  intro h
  have hlen := congrArg List.length h
  rw [listingLines_append, listingLines_append] at hlen
  have hc : listingLines (n :: r) =
      ("\t".toList ++ n ++ "\x7b\x7d,\n".toList) ++ listingLines r := by
    simp [listingLines]
  rw [hc] at hlen
  simp only [List.length_append, List.length_cons, String.toList] at hlen
  simp at hlen

theorem commit_changed (cfg : Config) (files : List (Str × Str)) (dirs : List Str)
    (buf old : Str) (hmode : cfg.stdout = false) (htarget : cfg.gofile ∉ dirs)
    (hread : ReadFile files dirs cfg.gofile = some old) (hne : buf ≠ old) :
    commit cfg files dirs buf = some (mapSet files cfg.gofile buf, 1) := by
  simp [commit, hmode, hread, hne, WriteFile, htarget]

/-- C8: when a declaration of an exported struct type `n` is added to a
package, the collected listing is the old one with `n` put at its sorted
place, the old names keeping their order; the rendered bytes differ from the
previous ones, and the write gate, finding the previous bytes in the target,
calls `WriteFile`. -/
theorem added_struct_is_listed_and_written (Upper : Char → Bool) (cfg : Config)
    (files : List (Str × Str)) (dirs : List Str) (pkg pkg2 : Package) (n : Str) (obj : Object)
    (ns : List Str)
    (hmode : cfg.stdout = false) (htarget : cfg.gofile ∉ dirs)
    (hexp : IsExported Upper n = true) (hkind : obj.Kind = ObjKind.Typ)
    (hstruct : ∃ spec : TypeSpec, obj.Decl = Decl.TypeSpec spec ∧ spec.Type_ = Expr.StructType)
    (hadd : AddsEntry pkg pkg2 (n, obj))
    (hns : sortedNames Upper pkg ObjKind.Typ = some ns)
    (hprev : ReadFile files dirs cfg.gofile = renderPackage Upper pkg) :
    ∃ (l r : List Str) (bufNew : Str),
      ns = l ++ r ∧
      sortedNames Upper pkg2 ObjKind.Typ = some (l ++ n :: r) ∧
      (l ++ n :: r).Sorted (· ≤ ·) ∧
      renderPackage Upper pkg2 = some bufNew ∧
      some bufNew ≠ renderPackage Upper pkg ∧
      commit cfg files dirs bufNew = some (mapSet files cfg.gofile bufNew, 1) := by
  obtain ⟨spec, hdecl, htype⟩ := hstruct
  obtain ⟨hname, hperm⟩ := hadd
  obtain ⟨hnp, hnsEq⟩ := sortedNames_some Upper pkg ObjKind.Typ ns hns
  have hsel : selected Upper ObjKind.Typ (n, obj) = true := by
    simp [selected, hkind, hexp]
  have hlisted : listed Upper ObjKind.Typ (n, obj) = true := by
    simp [listed, hsel, hdecl, declaresStruct, htype, isStructType]
  have hpanic : panics Upper ObjKind.Typ (n, obj) = false := by
    simp [panics, hdecl, isTypeSpec]
  -- the names collected for the new package
  have hany2 : (pkgObjects pkg2.Files).any (panics Upper ObjKind.Typ) = false := by
    rw [Bool.eq_false_iff]
    intro hany
    rw [List.any_eq_true] at hany
    obtain ⟨e, he, hp⟩ := hany
    rcases List.mem_cons.1 (hperm.mem_iff.1 he) with rfl | he2
    · rw [hpanic] at hp; cases hp
    · have : (pkgObjects pkg.Files).any (panics Upper ObjKind.Typ) = true :=
        List.any_eq_true.2 ⟨e, he2, hp⟩
      rw [hnp] at this; cases this
  have hnames2 : sortedNames Upper pkg2 ObjKind.Typ = some (List.orderedInsert (· ≤ ·) n ns) := by
    unfold sortedNames
    rw [scanFiles_eq, hany2]
    simp only [Bool.false_eq_true, if_false, Option.map_some', List.nil_append]
    have hp2 : (((pkgObjects pkg2.Files).filter (listed Upper ObjKind.Typ)).map Prod.fst).Perm
        (n :: ((pkgObjects pkg.Files).filter (listed Upper ObjKind.Typ)).map Prod.fst) := by
      have := (hperm.filter (listed Upper ObjKind.Typ)).map Prod.fst
      rwa [List.filter_cons, if_pos hlisted, List.map_cons] at this
    rw [sortStrings_congr hp2, hnsEq]
    rfl
  have hsplit := List.orderedInsert_eq_take_drop (· ≤ ·) n ns
  have hcat := List.takeWhile_append_dropWhile (fun b => decide ¬ n ≤ b) ns
  have hsorted : (List.orderedInsert (· ≤ ·) n ns).Sorted (· ≤ ·) := by
    rw [hnsEq]; exact (sortStrings_sorted _).orderedInsert n _
  have hnew := renderPackage_eq Upper pkg2 _ hnames2
  have hdiff : renderPackage Upper pkg2 ≠ renderPackage Upper pkg := by
    rw [hnew, renderPackage_eq Upper pkg ns hns, hname]
    intro heq
    have heq2 := Option.some.inj heq
    simp only [List.append_assoc, List.append_cancel_left_eq, List.append_cancel_right_eq] at heq2
    rw [hsplit] at heq2
    have := listingLines_insert_ne (ns.takeWhile (fun b => decide ¬ n ≤ b))
      (ns.dropWhile (fun b => decide ¬ n ≤ b)) n
    rw [hcat] at this
    exact this heq2
  cases hr2 : renderPackage Upper pkg2 with
  | none => rw [hr2] at hnew; cases hnew
  | some bufNew =>
    rw [hr2] at hdiff
    cases hread : ReadFile files dirs cfg.gofile with
    | none =>
      rw [hread, renderPackage_eq Upper pkg ns hns] at hprev
      cases hprev
    | some old =>
      have hne : bufNew ≠ old := by
        intro e
        rw [← hprev, hread, e] at hdiff
        exact hdiff rfl
      exact ⟨ns.takeWhile (fun b => decide ¬ n ≤ b), ns.dropWhile (fun b => decide ¬ n ≤ b),
        bufNew, hcat.symm, by rw [hnames2, hsplit], by rw [← hsplit]; exact hsorted, rfl,
        by rw [← hprev, hread]; exact fun e => hne (Option.some.inj e),
        commit_changed cfg files dirs bufNew old hmode htarget hread hne⟩

set_option maxRecDepth 100000 in
/-- Witness of C8: `type Cat struct{}` is added to the file declaring `Foo`,
`bar` and `Baz`, the target holding the bytes rendered before. -/
theorem added_struct_is_listed_and_written_witness :
    demoConfig.stdout = false ∧ demoConfig.gofile ∉ ([] : List Str) ∧
    IsExported noUpper "Cat".toList = true ∧
    AddsEntry fooBarBaz fooBarBazCat ("Cat".toList, structObject "Cat".toList) ∧
    sortedNames noUpper fooBarBaz ObjKind.Typ = some ["Foo".toList] ∧
    ReadFile [("demo.go".toList, srcFooBarBaz), ("proto_generator.go".toList, renderedFooBarBaz)] []
      demoConfig.gofile = renderPackage noUpper fooBarBaz ∧
    ∃ (l r : List Str) (bufNew : Str),
      ["Foo".toList] = l ++ r ∧
      sortedNames noUpper fooBarBazCat ObjKind.Typ = some (l ++ "Cat".toList :: r) ∧
      (l ++ "Cat".toList :: r).Sorted (· ≤ ·) ∧
      renderPackage noUpper fooBarBazCat = some bufNew ∧
      some bufNew ≠ renderPackage noUpper fooBarBaz ∧
      commit demoConfig
          [("demo.go".toList, srcFooBarBaz), ("proto_generator.go".toList, renderedFooBarBaz)] [] bufNew =
        some (mapSet [("demo.go".toList, srcFooBarBaz), ("proto_generator.go".toList, renderedFooBarBaz)]
          demoConfig.gofile bufNew, 1) :=
  have hadd : AddsEntry fooBarBaz fooBarBazCat ("Cat".toList, structObject "Cat".toList) :=
    ⟨rfl, by decide⟩
  have hprev : ReadFile
      [("demo.go".toList, srcFooBarBaz), ("proto_generator.go".toList, renderedFooBarBaz)] []
      demoConfig.gofile = renderPackage noUpper fooBarBaz := by decide
  ⟨rfl, by decide, by decide, hadd, by decide, hprev,
    added_struct_is_listed_and_written noUpper demoConfig
      [("demo.go".toList, srcFooBarBaz), ("proto_generator.go".toList, renderedFooBarBaz)] []
      fooBarBaz fooBarBazCat "Cat".toList (structObject "Cat".toList) ["Foo".toList]
      rfl (by decide) (by decide) rfl ⟨_, rfl, rfl⟩ hadd (by decide) hprev⟩


end ProtoGen
